import Mathlib

/-!
Shallow embedding of the merge-strategies subsystem (merge-strategies.c):
the per-path three-way resolver `merge_strategies_one_file`, the index
walker (`merge_entry`, `merge_one_path`, `merge_all`), and the two drivers
`merge_strategies_resolve` and `merge_strategies_octopus`.  External
collaborators (unpack-trees, ll-merge, the lockfile, the object store and
the filesystem) are abstracted as environment records, and observable
effects (progress lines, error messages, index/worktree mutations, on-disk
index commits) are returned explicitly so that theorems can speak about
them.
-/

/-- A cache entry of the in-memory index: `ce->name`, `ce->oid`,
`ce->ce_mode`, and the stage extracted by `ce_stage` (two bits of
`ce_flags`, hence a value in `Fin 4`).  Path names are modelled as
abstract identifiers with decidable equality and a total order standing
for the byte order `strcmp` imposes on path strings. -/
structure CacheEntry where
  name : Nat
  oid : Nat
  mode : Nat
  stage : Fin 4
 deriving DecidableEq, Repr

/-- The `merge_cb` callback type of merge-strategies.h: it receives the
three optional blob ids ocollected for stages 1/2/3, the path and the three
modes, and returns the C `int` result (nonzero means the merge program
failed / left a conflict).  The `void *data` closure argument is folded
into the function value. -/
abbrev MergeCb := Option Nat → Option Nat → Option Nat → Nat → Nat → Nat → Nat → Int

/-- The scanning loop of `merge_entry` (merge-strategies.c:265-274): walk
the consecutive entries whose name equals `path`, writing `&ce->oid` into
`oids[stage - 1]` and `ce->ce_mode` into `modes[stage - 1]` and counting
them in `found`.  A stage-0 entry inside the run would make the C code
write to slot `-1`, out of bounds; the model returns `none` for that
(undefined) case, and `some` with the final arrays and count otherwise. -/
def collectStages (l : List CacheEntry) (path : Nat) (oids : Fin 3 → Option Nat)
    (modes : Fin 3 → Nat) (found : Nat) :
    Option ((Fin 3 → Option Nat) × (Fin 3 → Nat) × Nat) :=
  match l with
  | [] => some (oids, modes, found)
  | ce :: rest =>
    if ce.name = path then
      if h : ce.stage.val = 0 then none
      else
        collectStages rest path
          (Function.update oids ⟨ce.stage.val - 1, by have := ce.stage.isLt; omega⟩
            (some ce.oid))
          (Function.update modes ⟨ce.stage.val - 1, by have := ce.stage.isLt; omega⟩
            ce.mode)
          (found + 1)
    else some (oids, modes, found)

/-- `merge_entry` (merge-strategies.c:258-285) on the index suffix
starting at `pos` (the C function receives `istate` and `pos`; the model
receives `istate->cache` with the first `pos` entries dropped).  Returns
`some found` (the positive number of entries consumed) on success,
`some (-1)` when no entry matches (`"%s is not in the cache"`),
`some (-2)` when the callback returns nonzero (`"Merge program failed"`,
printed unless `quiet`), and `none` when the scan would write out of
bounds.  The C do-while reads `istate->cache[pos]` before checking the
bound; on an empty suffix the model yields the not-in-cache error. -/
def merge_entry (l : List CacheEntry) (quiet : Bool) (path : Nat) (cb : MergeCb) :
    Option Int :=
  match collectStages l path (fun _ => none) (fun _ => 0) 0 with
  | none => none
  | some (oids, modes, found) =>
    if found = 0 then some (-1)
    else if cb (oids 0) (oids 1) (oids 2) path (modes 0) (modes 1) (modes 2) ≠ 0 then
      some (-2)
    else some (Int.ofNat found)

/-- Helper loop for `index_name_pos`: the index is sorted by
`(name, stage)`, and `index_name_pos` looks the path up with stage 0,
returning the position when an exact stage-0 entry exists and
`-(insertion point) - 1` otherwise.  The model scans the sorted list
linearly, which agrees with the binary search on sorted input. -/
def index_name_pos_go : List CacheEntry → Nat → Nat → Int
  | [], _, p => -(Int.ofNat p) - 1
  | ce :: rest, path, p =>
    if ce.name < path then index_name_pos_go rest path (p + 1)
    else if ce.name = path ∧ ce.stage.val = 0 then Int.ofNat p
    else -(Int.ofNat p) - 1

/-- `index_name_pos` over the model index. -/
def index_name_pos (l : List CacheEntry) (path : Nat) : Int :=
  index_name_pos_go l path 0

/-- `merge_one_path` (merge-strategies.c:287-304): if the path exists as a
stage-0 entry (`pos >= 0`) it is already merged and nothing happens;
otherwise `merge_entry` is dispatched at the insertion point `-pos - 1`,
`-1` is propagated, a callback conflict (`-2`) becomes return value 1,
and anything else becomes 0.  The `oneshot` parameter is ignored by the
C function and by the model. -/
def merge_one_path (l : List CacheEntry) (oneshot quiet : Bool) (path : Nat)
    (cb : MergeCb) : Option Int :=
  if index_name_pos l path < 0 then
    match merge_entry (l.drop (-(index_name_pos l path) - 1).toNat) quiet path cb with
    | none => none
    | some r => if r = -1 then some (-1) else if r = -2 then some 1 else some 0
  else some 0

/-- `merge_all` (merge-strategies.c:306-329).  The C loop walks positions
`i`; the model recurses on the corresponding suffix.  On a successful
dispatch of `ret` entries the cursor advances past them
(`i += ret - 1; i++` becomes dropping `ret` entries); on a callback
conflict (`-2`) the failure is counted and the walk continues when
`oneshot` is set, and the walk stops with return value 1 otherwise.
The second component of the result instruments the walk with the list of
paths actually dispatched to the callback, in order; the `Int` component
is exactly the C return value. -/
def merge_all (l : List CacheEntry) (oneshot quiet : Bool) (cb : MergeCb)
    (err : Nat) (tr : List Nat) : Option (Int × List Nat) :=
  match l with
  | [] => some (Int.ofNat err, tr)
  | ce :: rest =>
    if ce.stage.val = 0 then merge_all rest oneshot quiet cb err tr
    else
      match merge_entry (ce :: rest) quiet ce.name cb with
      | none => none
      | some r =>
        if 0 < r then merge_all ((ce :: rest).drop r.toNat) oneshot quiet cb err (tr ++ [ce.name])
        else if r = -1 then some (-1, tr)
        else if r = -2 then
          if oneshot then merge_all rest oneshot quiet cb (err + 1) (tr ++ [ce.name])
          else some (1, tr ++ [ce.name])
        else merge_all rest oneshot quiet cb err tr
termination_by l.length
decreasing_by
  all_goals simp [List.length_drop]
  all_goals omega

/-- Mode value `S_IFLNK` (a symbolic link, 0120000 octal). -/
def S_IFLNK : Nat := 40960

/-- Mode value `S_IFGITLINK` (a submodule reference, 0160000 octal). -/
def S_IFGITLINK : Nat := 57344

/-- External collaborators of the one-file resolver, abstracted: the
filesystem check `file_exists`, the path check `verify_path`, the failure
behaviour of `add_index_entry`, `remove_file_from_index` and
`checkout_entry`, the status returned by `ll_merge` (negative is an
internal failure, zero clean, positive the number of conflict hunks),
whether `index_file_exists` finds the current cache entry in
`do_merge_one_file`, the failure behaviour of `open`/`write_in_full`, and
the result of `add_file_to_index`. -/
structure FsEnv where
  fileExists : Nat → Bool
  verifyPath : Nat → Nat → Bool
  addIndexFails : Bool
  removeIndexFails : Bool
  checkoutFails : Bool
  llMergeStatus : Int
  ceExists : Bool
  openFails : Bool
  writeFails : Bool
  addFileRet : Int

/-- Progress lines printed to stdout by the one-file resolver, one
constructor per `printf` format: `"Removing %s\n"`, `"Adding %s\n"`,
`"Auto-merging %s\n"`, `"Added %s in both, but differently.\n"`. -/
inductive ProgressMsg
  | removing (path : Nat)
  | adding (path : Nat)
  | autoMerging (path : Nat)
  | addedDifferently (path : Nat)
 deriving DecidableEq, Repr

/-- Error messages produced through `error(...)` by the one-file
resolver, one constructor per format string in merge-strategies.c. -/
inductive OneFileErr
  | deletedModified (path : Nat)
  | invalidPath (path : Nat)
  | cannotAdd (path : Nat)
  | cannotRemoveFromIndex (path : Nat)
  | cannotCheckout (path : Nat)
  | untrackedOverwritten (path : Nat)
  | addedPermConflict (path : Nat)
  | symlinkConflict (path : Nat)
  | submoduleConflict (path : Nat)
  | internalMergeFailed
  | openFailed (path : Nat)
  | writeFailed (path : Nat)
  | contentConflict (path : Nat)
  | permConflict (om um tm : Nat) (path : Nat)
  | unhandledCase (path : Nat)
 deriving DecidableEq, Repr

/-- Index and worktree mutations performed by the one-file resolver. -/
inductive FileAction
  | removeWorktree (path : Nat)
  | removeFromIndex (path : Nat)
  | addIndex (mode : Nat) (oid : Nat) (path : Nat)
  | checkout (path : Nat)
  | unlinkWorktree (path : Nat)
  | writeWorktree (path : Nat)
  | addFileToIndex (path : Nat)
 deriving DecidableEq, Repr

/-- Result of a one-file resolver call: the C return value (`none` when
the process dies, e.g. through `BUG(...)`), the progress lines, the error
messages, and the index/worktree mutations, each in emission order. -/
structure OFRes where
  ret : Option Int
  msgs : List ProgressMsg
  errs : List OneFileErr
  acts : List FileAction
 deriving DecidableEq, Repr

/-- `add_to_index_cacheinfo` (merge-strategies.c:13-38): verify the path,
build a stage-0 entry with the given mode and oid and add it to the
index. -/
def add_to_index_cacheinfo (env : FsEnv) (mode oid : Nat) (path : Nat) : OFRes :=
  if env.verifyPath path mode = false then ⟨some (-1), [], [.invalidPath path], []⟩
  else if env.addIndexFails then ⟨some (-1), [], [.cannotAdd path], []⟩
  else ⟨some 0, [], [], [.addIndex mode oid path]⟩

/-- `checkout_from_index` (merge-strategies.c:40-54): materialize the
stage-0 entry of `path` in the working tree. -/
def checkout_from_index (env : FsEnv) (path : Nat) : OFRes :=
  if env.checkoutFails then ⟨some (-1), [], [.cannotCheckout path], []⟩
  else ⟨some 0, [], [], [.checkout path]⟩

/-- `merge_one_file_deleted` (merge-strategies.c:56-77): the path was
deleted on one side and is unchanged on the other.  A mode change on the
surviving side is an error; otherwise, when ours is present, print
`"Removing %s"` and unlink the worktree file if it exists, and in all
cases remove the path from the index. -/
def merge_one_file_deleted (env : FsEnv) (origB ourB theirB : Option Nat)
    (path : Nat) (om um tm : Nat) : OFRes :=
  if (ourB.isSome = true ∧ om ≠ um) ∨ (theirB.isSome = true ∧ om ≠ tm) then
    ⟨some (-1), [], [.deletedModified path], []⟩
  else
    let msgs := if ourB.isSome = true then [ProgressMsg.removing path] else []
    let acts := if ourB.isSome = true ∧ env.fileExists path = true then
      [FileAction.removeWorktree path] else []
    if env.removeIndexFails then ⟨some (-1), msgs, [.cannotRemoveFromIndex path], acts⟩
    else ⟨some 0, msgs, [], acts ++ [.removeFromIndex path]⟩

/-- `do_merge_one_file` (merge-strategies.c:79-154): the three-way content
merge.  Symlink and submodule changes are refused; `"Auto-merging"` is
printed when an ancestor exists and `"Added %s in both, but differently."`
otherwise (the ancestor blob is then the empty blob); the worktree file is
replaced by unlink/open/write; a nonzero `ll_merge` status or a missing
ancestor is a content conflict; differing modes are a permission
conflict; otherwise the merged file is re-added to the index. -/
def do_merge_one_file (env : FsEnv) (origB ourB theirB : Option Nat)
    (path : Nat) (om um tm : Nat) : OFRes :=
  if um = S_IFLNK ∨ tm = S_IFLNK then ⟨some (-1), [], [.symlinkConflict path], []⟩
  else if um = S_IFGITLINK ∨ tm = S_IFGITLINK then
    ⟨some (-1), [], [.submoduleConflict path], []⟩
  else
    let msg := if origB.isSome = true then ProgressMsg.autoMerging path
      else ProgressMsg.addedDifferently path
    if env.llMergeStatus < 0 then ⟨some (-1), [msg], [.internalMergeFailed], []⟩
    else if env.ceExists = false then ⟨none, [msg], [], []⟩
    else if env.openFails then ⟨some (-1), [msg], [.openFailed path], [.unlinkWorktree path]⟩
    else if env.writeFails then
      ⟨some (-1), [msg], [.writeFailed path], [.unlinkWorktree path, .writeWorktree path]⟩
    else
      let cc := env.llMergeStatus ≠ 0 ∨ origB = none
      let errs1 := if cc then [OneFileErr.contentConflict path] else []
      if um ≠ tm then
        ⟨some (-1), [msg], errs1 ++ [.permConflict om um tm path],
          [.unlinkWorktree path, .writeWorktree path]⟩
      else if cc then ⟨some (-1), [msg], errs1, [.unlinkWorktree path, .writeWorktree path]⟩
      else ⟨some env.addFileRet, [msg], [],
        [.unlinkWorktree path, .writeWorktree path, .addFileToIndex path]⟩

/-- `merge_strategies_one_file` (merge-strategies.c:156-220): the decision
chain over the presence of the three blobs.  Deleted in one and unchanged
(same id) in the other goes to `merge_one_file_deleted`; added only in
ours is recorded in the index; added only in theirs prints `"Adding"`,
then fails if an untracked file is in the way, otherwise adds to the
index and checks out; added identically in both checks the modes, prints
`"Adding"`, adds and checks out; modified in both goes to the content
merge; every remaining combination is the `"Not handling case"` error. -/
def merge_strategies_one_file (env : FsEnv) (origB ourB theirB : Option Nat)
    (path : Nat) (om um tm : Nat) : OFRes :=
  if origB.isSome = true ∧ ((theirB = none ∧ ourB.isSome = true ∧ origB = ourB) ∨
      (ourB = none ∧ theirB.isSome = true ∧ origB = theirB)) then
    merge_one_file_deleted env origB ourB theirB path om um tm
  else if origB = none ∧ ourB.isSome = true ∧ theirB = none then
    add_to_index_cacheinfo env um (ourB.getD 0) path
  else if origB = none ∧ ourB = none ∧ theirB.isSome = true then
    if env.fileExists path = true then
      ⟨some (-1), [.adding path], [.untrackedOverwritten path], []⟩
    else
      let add := add_to_index_cacheinfo env tm (theirB.getD 0) path
      if add.ret ≠ some 0 then ⟨some (-1), [.adding path], add.errs, add.acts⟩
      else
        let co := checkout_from_index env path
        ⟨co.ret, [.adding path], co.errs, add.acts ++ co.acts⟩
  else if origB = none ∧ ourB.isSome = true ∧ theirB.isSome = true ∧ ourB = theirB then
    if um ≠ tm then ⟨some (-1), [], [.addedPermConflict path], []⟩
    else
      let add := add_to_index_cacheinfo env um (ourB.getD 0) path
      if add.ret ≠ some 0 then ⟨some (-1), [.adding path], add.errs, add.acts⟩
      else
        let co := checkout_from_index env path
        ⟨co.ret, [.adding path], co.errs, add.acts ++ co.acts⟩
  else if ourB.isSome = true ∧ theirB.isSome = true then
    do_merge_one_file env origB ourB theirB path om um tm
  else ⟨some (-1), [], [.unhandledCase path], []⟩

/-- The C idiom `!!ret` used by the drivers to collapse a walk result to
an exit code (merge-strategies.c:403 and 596). -/
def int_not_not (r : Int) : Int := if r = 0 then 0 else 1

/-- Commits of the on-disk index performed by `merge_strategies_resolve`
under its lock: the `write_locked_index` after the unpack-trees pass
(line 392) and the one after the automatic-merge pass (line 402). -/
inductive ResolveWrite
  | simpleWrite
  | autoWrite
 deriving DecidableEq, Repr

/-- External outcomes of one `merge_strategies_resolve` invocation:
whether some `add_tree` call fails (tree parse failure, lines 368-376),
whether `unpack_trees` fails (line 388), whether `write_index_as_tree`
reports conflicts (line 394), and the index state and callback used by
the automatic-merge phase. -/
structure ResolveEnv where
  addTreeFails : Bool
  unpackFails : Bool
  writeTreeFails : Bool
  istate : List CacheEntry
  cb : MergeCb

/-- `merge_strategies_resolve` (merge-strategies.c:343-411): a failed
`add_tree` or a failed `unpack_trees` rolls the lock back and returns 2
with no on-disk write; otherwise the index is committed, and when
`write_index_as_tree` reports conflicts the automatic-merge phase runs
`merge_all(istate, oneshot=0, quiet=0, ...)` and returns `!!ret` after a
second commit.  Returns the exit code paired with the on-disk commits
(`none` when the walk hits undefined behaviour). -/
def merge_strategies_resolve (env : ResolveEnv) : Option (Int × List ResolveWrite) :=
  if env.addTreeFails then some (2, [])
  else if env.unpackFails then some (2, [])
  else if env.writeTreeFails then
    match merge_all env.istate false false env.cb 0 [] with
    | none => none
    | some (r, _) => some (int_not_not r, [.simpleWrite, .autoWrite])
  else some (0, [.simpleWrite])

/-- The fast-forward test of `merge_strategies_octopus`
(merge-strategies.c:538-541): starting from `can_ff = 1`, walk `common`
and `reference_commit` in lockstep while both a merge base and a
reference slot remain and `can_ff` still holds, comparing ids.  The loop
stops at the end of either list, so `can_ff` stays true whenever the
compared prefix (of length `min |common| references`) agrees. -/
def octopus_can_ff : List Nat → List Nat → Bool
  | [], _ => true
  | _ :: _, [] => true
  | c :: cs, r :: rs => if c = r then octopus_can_ff cs rs else false

/-- The fast-forward condition as the specification states it:
`|common| ≥ |reference_commits|` and `common[i] = reference_commits[i].id`
for every `i` below `|reference_commits|`, i.e. the reference list is a
prefix of the merge-base list.  Stated from the spec for comparison with
`octopus_can_ff`, which is translated from the code. -/
def can_ff_spec (common refs : List Nat) : Bool := refs.isPrefixOf common

/-- Per-remote external outcomes for one iteration of the octopus loop:
the remote's commit id, the ids returned by `get_merge_bases_many`,
whether the fast-forward `fast_forward(r, oids, 2, 0)` fails (it returns
`-1` on refresh/parse/unpack failure and on a failed index write), whether
the simple-merge `fast_forward(r, oids, i, 1)` fails, whether
`write_tree` reports conflicts, and the index state seen by the
automatic-merge phase of this iteration. -/
structure RemoteEnv where
  oid : Nat
  commonIds : List Nat
  ffFails : Bool
  simpleFFFails : Bool
  writeTreeFails : Bool
  istate : List CacheEntry

/-- Driver state threaded through the octopus loop: the ids in
`reference_commit[0..references-1]`, the `non_ff_merge` flag, the pending
`ret`, the on-disk index commits performed so far (iteration number
paired with 0 for the commit inside `fast_forward` and 1 for the commit
after `merge_all`), and the ids of the remotes processed so far (those
for which merge-base computation ran). -/
structure OctoState where
  refs : List Nat
  nonFF : Bool
  ret : Int
  writes : List (Nat × Nat)
  processed : List Nat
 deriving DecidableEq, Repr

/-- Result of the octopus driver: the returned exit code (`none` when the
process dies through `die(...)` or undefined behaviour), the on-disk
index commits, and the processed remote ids. -/
structure OctoResult where
  retv : Option Int
  writes : List (Nat × Nat)
  processed : List Nat
 deriving DecidableEq, Repr

/-- One iteration body of the octopus loop (merge-strategies.c:500-609),
for a state whose `ret` is zero: compute the merge bases (`die` when
empty), skip an already-merged remote, fast-forward when `non_ff_merge`
is unset and `octopus_can_ff` holds (a failed fast-forward returns its
`-1` through `out`; a successful one commits the index, resets the
reference list to the remote and keeps `ret = 0`), and otherwise run the
simple merge (a failed unpack returns 2; a conflicted tree write runs
`merge_all` with `oneshot=0, quiet=0`, sets `ret = !!result` and commits
the index again).  `Sum.inl` is an early exit of the whole driver,
`Sum.inr` the state for the next iteration. -/
def octoStep (cb : MergeCb) (s : OctoState) (e : RemoteEnv) (k : Nat) :
    OctoResult ⊕ OctoState :=
  if e.commonIds = [] then .inl ⟨none, s.writes, s.processed ++ [e.oid]⟩
  else if e.oid ∈ e.commonIds then
    .inr ⟨s.refs, s.nonFF, s.ret, s.writes, s.processed ++ [e.oid]⟩
  else if s.nonFF = false ∧ octopus_can_ff e.commonIds s.refs = true then
    if e.ffFails then .inl ⟨some (-1), s.writes, s.processed ++ [e.oid]⟩
    else .inr ⟨[e.oid], s.nonFF, 0, s.writes ++ [(k, 0)], s.processed ++ [e.oid]⟩
  else
    if e.simpleFFFails then .inl ⟨some 2, s.writes, s.processed ++ [e.oid]⟩
    else if e.writeTreeFails then
      match merge_all e.istate false false cb 0 [] with
      | none => .inl ⟨none, s.writes ++ [(k, 0)], s.processed ++ [e.oid]⟩
      | some (r, _) =>
        .inr ⟨s.refs ++ [e.oid], true, int_not_not r, s.writes ++ [(k, 0), (k, 1)],
          s.processed ++ [e.oid]⟩
    else .inr ⟨s.refs ++ [e.oid], true, 0, s.writes ++ [(k, 0)], s.processed ++ [e.oid]⟩

/-- The octopus loop: before processing each remote the pending `ret` is
checked (merge-strategies.c:507-518) — a nonzero `ret` from the previous
iteration prints `"Automated merge did not work."`, sets `ret = 2` and
returns without touching the remaining remotes.  `Sum.inr` carries the
state left after the whole list was processed. -/
def octoSteps (cb : MergeCb) : OctoState → List RemoteEnv → Nat → OctoResult ⊕ OctoState
  | s, [], _ => .inr s
  | s, e :: rest, k =>
    if s.ret ≠ 0 then .inl ⟨some 2, s.writes, s.processed⟩
    else
      match octoStep cb s e k with
      | .inl res => .inl res
      | .inr s2 => octoSteps cb s2 rest (k + 1)

/-- `merge_strategies_octopus` (merge-strategies.c:474-614): local changes
relative to the head tree abort with 2 before any index mutation;
otherwise the loop starts from `reference_commit = [head]`,
`non_ff_merge = 0`, `ret = 0`, and the final `ret` is returned. -/
def merge_strategies_octopus (cb : MergeCb) (headId : Nat) (indexHasChanges : Bool)
    (remotes : List RemoteEnv) : OctoResult :=
  if indexHasChanges then ⟨some 2, [], []⟩
  else
    match octoSteps cb ⟨[headId], false, 0, [], []⟩ remotes 0 with
    | .inl res => res
    | .inr s => ⟨some s.ret, s.writes, s.processed⟩

/-- A concrete filesystem environment in which no worktree file exists
and every index operation succeeds. -/
def fsEnvNone : FsEnv :=
  ⟨fun _ => false, fun _ _ => true, false, false, false, 0, true, false, false, 0⟩

/-- A concrete filesystem environment in which a worktree file exists at
every path and every index operation succeeds. -/
def fsEnvTracked : FsEnv :=
  ⟨fun _ => true, fun _ _ => true, false, false, false, 0, true, false, false, 0⟩

/-- C2 counterexample: with one merge base equal to the single reference
commit extended by a second reference, the code's loop exhausts `common`
with every compared element equal and leaves `can_ff = 1`, although the
merge-base list is strictly shorter than the reference list, so the
claimed length condition fails. -/
theorem c2_counterexample :
    octopus_can_ff [5] [5, 6] = true ∧ can_ff_spec [5] [5, 6] = false := by
  decide

/-- C2 (amended): `can_ff` holds iff `common` and `reference_commits`
agree on every position below the minimum of their lengths — equivalently
the two truncations to each other's length coincide.  The length test
`|common| ≥ |reference_commits|` of the claim is not part of the code. -/
theorem c2_canff_prefix_agree (c r : List Nat) :
    octopus_can_ff c r = true ↔ c.take r.length = r.take c.length := by
  induction c generalizing r with
  | nil => simp [octopus_can_ff]
  | cons x xs ih =>
    cases r with
    | nil => simp [octopus_can_ff]
    | cons y ys =>
      simp only [octopus_can_ff, List.length_cons, List.take_succ_cons, List.cons.injEq]
      by_cases h : x = y
      · subst h
        simp [ih]
      · simp [h]

/-- C2 amended claim instantiated at the counterexample's input, through
the theorem itself. -/
theorem c2_canff_prefix_agree_witness :
    octopus_can_ff [5] [5, 6] = true ↔
      List.take (List.length [5, 6]) [5] = List.take (List.length [5]) [5, 6] :=
  c2_canff_prefix_agree [5] [5, 6]

/-- C10: `merge_one_path` ignores its `oneshot` parameter entirely, and a
callback conflict (a `-2` from `merge_entry` at the insertion point of an
unmerged path) always yields return value 1, regardless of `oneshot`. -/
theorem c10_oneshot_independent (l : List CacheEntry) (o1 o2 quiet : Bool)
    (path : Nat) (cb : MergeCb) :
    merge_one_path l o1 quiet path cb = merge_one_path l o2 quiet path cb
    ∧ (index_name_pos l path < 0 →
       merge_entry (l.drop (-(index_name_pos l path) - 1).toNat) quiet path cb = some (-2) →
       merge_one_path l o1 quiet path cb = some 1) := by
  constructor
  · rfl
  · intro h1 h2
    simp only [merge_one_path]
    rw [if_pos h1, h2]
    norm_num

/-- C10 at a concrete index with one unmerged path and a callback that
reports a conflict, through the theorem itself. -/
theorem c10_oneshot_independent_witness :
    index_name_pos [⟨7, 1, 33188, 1⟩] 7 < 0
    ∧ merge_entry (List.drop (-(index_name_pos [⟨7, 1, 33188, 1⟩] 7) - 1).toNat
        [⟨7, 1, 33188, 1⟩]) false 7 (fun _ _ _ _ _ _ _ => 1) = some (-2)
    ∧ merge_one_path [⟨7, 1, 33188, 1⟩] true false 7 (fun _ _ _ _ _ _ _ => 1) = some 1 :=
  ⟨by decide, by decide,
    (c10_oneshot_independent [⟨7, 1, 33188, 1⟩] true false false 7
      (fun _ _ _ _ _ _ _ => 1)).2 (by decide) (by decide)⟩

/-- Auxiliary for C9: when every entry of the consecutive run of `path`
at the head of the suffix has a nonzero stage, the scan of `merge_entry`
never writes out of bounds. -/
theorem collectStages_isSome (run : List CacheEntry) (path : Nat)
    (o : Fin 3 → Option Nat) (m : Fin 3 → Nat) (f : Nat)
    (h : ∀ ce ∈ run.takeWhile (fun c => c.name == path), ce.stage.val ≠ 0) :
    (collectStages run path o m f).isSome = true := by
  induction run generalizing o m f with
  | nil => simp [collectStages]
  | cons ce rest ih =>
    by_cases hname : ce.name = path
    · have hstage : ce.stage.val ≠ 0 := by
        apply h
        simp [List.takeWhile_cons, hname]
      simp only [collectStages]
      rw [if_pos hname, dif_neg hstage]
      apply ih
      intro c hc
      apply h
      rw [List.takeWhile_cons]
      simp only [hname, beq_self_eq_true, if_true]
      exact List.mem_cons_of_mem ce hc
    · simp [collectStages, hname]

/-- Auxiliary for C9: a stage-0 entry inside the run of `path` makes the
scan hit the out-of-bounds slot `-1` (`none` in the model). -/
theorem collectStages_stage0 (l1 : List CacheEntry) (ce : CacheEntry)
    (rest : List CacheEntry) (path : Nat) (o : Fin 3 → Option Nat) (m : Fin 3 → Nat)
    (f : Nat) (hnames : ∀ c ∈ l1, c.name = path) (hname : ce.name = path)
    (hstage : ce.stage.val = 0) :
    collectStages (l1 ++ ce :: rest) path o m f = none := by
  induction l1 generalizing o m f with
  | nil =>
    simp only [List.nil_append, collectStages]
    rw [if_pos hname, dif_pos hstage]
  | cons c l1 ih =>
    simp only [List.cons_append, collectStages]
    rw [if_pos (hnames c (List.mem_cons_self c l1))]
    by_cases h0 : c.stage.val = 0
    · rw [dif_pos h0]
    · rw [dif_neg h0]
      exact ih _ _ _ (fun x hx => hnames x (List.mem_cons_of_mem c hx))

/-- C9: in `merge_entry`, every write to `oids[stage - 1]` and
`modes[stage - 1]` is in bounds provided every consecutive entry whose
name equals the dispatched path has a nonzero stage (first conjunct: the
scan completes), while a single stage-0 entry inside that run would index
slot `-1` (second conjunct: the scan is undefined there), so totality
depends on the index invariant that a path never mixes a stage-0 entry
with stage-1/2/3 entries. -/
theorem c9_stage_slots :
    (∀ (run : List CacheEntry) (path : Nat),
       (∀ ce ∈ run.takeWhile (fun c => c.name == path), ce.stage.val ≠ 0) →
       (collectStages run path (fun _ => none) (fun _ => 0) 0).isSome = true)
    ∧ (∀ (l1 : List CacheEntry) (ce : CacheEntry) (rest : List CacheEntry) (path : Nat),
       (∀ c ∈ l1, c.name = path) → ce.name = path → ce.stage.val = 0 →
       collectStages (l1 ++ ce :: rest) path (fun _ => none) (fun _ => 0) 0 = none) :=
  ⟨fun run path h => collectStages_isSome run path _ _ _ h,
   fun l1 ce rest path h1 h2 h3 => collectStages_stage0 l1 ce rest path _ _ _ h1 h2 h3⟩

/-- C9 at a concrete two-entry run (stages 1 and 2) and at the same run
with the second entry at stage 0, through the theorem itself. -/
theorem c9_stage_slots_witness :
    (collectStages [⟨3, 7, 33188, 1⟩, ⟨3, 8, 33188, 2⟩] 3
      (fun _ => none) (fun _ => 0) 0).isSome = true
    ∧ collectStages [⟨3, 7, 33188, 1⟩, ⟨3, 8, 33188, 0⟩] 3
      (fun _ => none) (fun _ => 0) 0 = none :=
  ⟨c9_stage_slots.1 [⟨3, 7, 33188, 1⟩, ⟨3, 8, 33188, 2⟩] 3 (by decide),
   c9_stage_slots.2 [⟨3, 7, 33188, 1⟩] ⟨3, 8, 33188, 0⟩ [] 3 (by decide) (by decide)
     (by decide)⟩

/-- C1 counterexample: an index with two unmerged paths and a callback
that fails on every path.  With `oneshot = 0, quiet = 0` — exactly how
the automatic-merge phase of `merge_strategies_resolve` invokes
`merge_all` — the walk returns 1 after the first failing path and the
dispatch trace contains only the first path: the second unmerged path is
never dispatched and no failure count is accumulated. -/
theorem c1_counterexample :
    merge_all [⟨1, 10, 33188, 1⟩, ⟨2, 11, 33188, 1⟩] false false
      (fun _ _ _ _ _ _ _ => 1) 0 [] = some (1, [1]) := by
  simp [merge_all, merge_entry, collectStages]

/-- C1 (amended): in the automatic-merge phase of
`merge_strategies_resolve` (`merge_all` with `oneshot = 0`), a
content-merge error on one path aborts the index walk: whatever stage-0
prefix precedes the first unmerged path, if the callback fails on it the
walk returns 1 immediately and the dispatch trace ends at that path, so
the remaining unmerged paths are not dispatched and no failures are
accumulated (accumulation happens only when `oneshot` is nonzero). -/
theorem c1_amended_abort (l1 : List CacheEntry) (ce : CacheEntry)
    (rest : List CacheEntry) (quiet : Bool) (cb : MergeCb) (err : Nat) (tr : List Nat)
    (h0 : ∀ c ∈ l1, c.stage.val = 0) (h1 : ce.stage.val ≠ 0)
    (h2 : merge_entry (ce :: rest) quiet ce.name cb = some (-2)) :
    merge_all (l1 ++ ce :: rest) false quiet cb err tr = some (1, tr ++ [ce.name]) := by
  induction l1 with
  | nil =>
    simp only [List.nil_append]
    rw [merge_all]
    rw [if_neg h1, h2]
    norm_num
  | cons c l1 ih =>
    simp only [List.cons_append]
    rw [merge_all]
    rw [if_pos (h0 c (List.mem_cons_self c l1))]
    exact ih (fun x hx => h0 x (List.mem_cons_of_mem c hx))

/-- C1 amended claim at a concrete index: a stage-0 entry, then a failing
unmerged path, then one more unmerged path, through the theorem itself. -/
theorem c1_amended_abort_witness :
    (∀ c ∈ [(⟨0, 9, 33188, 0⟩ : CacheEntry)], c.stage.val = 0)
    ∧ (⟨1, 10, 33188, 1⟩ : CacheEntry).stage.val ≠ 0
    ∧ merge_entry [⟨1, 10, 33188, 1⟩, ⟨2, 11, 33188, 1⟩] false 1
        (fun _ _ _ _ _ _ _ => 1) = some (-2)
    ∧ merge_all [⟨0, 9, 33188, 0⟩, ⟨1, 10, 33188, 1⟩, ⟨2, 11, 33188, 1⟩] false false
        (fun _ _ _ _ _ _ _ => 1) 0 [] = some (1, [1]) :=
  ⟨by decide, by decide, by decide,
    c1_amended_abort [⟨0, 9, 33188, 0⟩] ⟨1, 10, 33188, 1⟩ [⟨2, 11, 33188, 1⟩] false
      (fun _ _ _ _ _ _ _ => 1) 0 [] (by decide) (by decide) (by decide)⟩

/-- Auxiliary: the entry count of the `merge_entry` scan never
decreases. -/
theorem collectStages_found_le (l : List CacheEntry) (path : Nat) :
    ∀ (o : Fin 3 → Option Nat) (m : Fin 3 → Nat) (f : Nat) o2 m2 f2,
    collectStages l path o m f = some (o2, m2, f2) → f ≤ f2 := by
  induction l with
  | nil =>
    intro o m f o2 m2 f2 h
    simp only [collectStages, Option.some.injEq, Prod.mk.injEq] at h
    omega
  | cons ce rest ih =>
    intro o m f o2 m2 f2 h
    simp only [collectStages] at h
    by_cases hn : ce.name = path
    · rw [if_pos hn] at h
      by_cases h0 : ce.stage.val = 0
      · rw [dif_pos h0] at h
        exact absurd h (by simp)
      · rw [dif_neg h0] at h
        have := ih _ _ _ _ _ _ h
        omega
    · rw [if_neg hn] at h
      simp only [Option.some.injEq, Prod.mk.injEq] at h
      omega

/-- Auxiliary: when `merge_entry` is dispatched at a position whose entry
has a nonzero stage and carries the dispatched path itself — exactly how
`merge_all` dispatches it — the result is a callback conflict or a
positive entry count, never the not-in-cache error `-1`. -/
theorem merge_entry_first_match (ce : CacheEntry) (rest : List CacheEntry)
    (quiet : Bool) (cb : MergeCb) (h1 : ce.stage.val ≠ 0) (r : Int)
    (h : merge_entry (ce :: rest) quiet ce.name cb = some r) : r = -2 ∨ 0 < r := by
  unfold merge_entry at h
  cases hc : collectStages (ce :: rest) ce.name (fun _ => none) (fun _ => 0) 0 with
  | none =>
    rw [hc] at h
    exact absurd h (by simp)
  | some trip =>
    obtain ⟨o2, m2, f2⟩ := trip
    rw [hc] at h
    dsimp only at h
    have hf : 1 ≤ f2 := by
      simp only [collectStages, if_true] at hc
      rw [dif_neg h1] at hc
      have := collectStages_found_le rest ce.name _ _ _ _ _ _ hc
      omega
    rw [if_neg (by omega : ¬ f2 = 0)] at h
    by_cases hcb : cb (o2 0) (o2 1) (o2 2) ce.name (m2 0) (m2 1) (m2 2) ≠ 0
    · rw [if_pos hcb] at h
      simp only [Option.some.injEq] at h
      left
      omega
    · rw [if_neg hcb] at h
      simp only [Option.some.injEq, Int.ofNat_eq_coe] at h
      right
      omega

/-- Auxiliary for C5: the walk of `merge_all` never surfaces the
not-in-cache error `-1`: every dispatch starts at an entry carrying the
dispatched path, so the returned code is a (nonnegative) conflict count
or 1.  Stated with a fuel bound for induction on the suffix length. -/
theorem merge_all_nonneg (n : Nat) :
    ∀ (l : List CacheEntry) (oneshot quiet : Bool) (cb : MergeCb) (err : Nat)
      (tr : List Nat) (r : Int) (t2 : List Nat), l.length ≤ n →
      merge_all l oneshot quiet cb err tr = some (r, t2) → 0 ≤ r := by
  induction n with
  | zero =>
    intro l oneshot quiet cb err tr r t2 hlen h
    cases l with
    | nil =>
      rw [merge_all] at h
      simp only [Option.some.injEq, Prod.mk.injEq, Int.ofNat_eq_coe] at h
      omega
    | cons ce rest => simp at hlen
  | succ n ih =>
    intro l oneshot quiet cb err tr r t2 hlen h
    cases l with
    | nil =>
      rw [merge_all] at h
      simp only [Option.some.injEq, Prod.mk.injEq, Int.ofNat_eq_coe] at h
      omega
    | cons ce rest =>
      simp only [List.length_cons] at hlen
      rw [merge_all] at h
      by_cases h0 : ce.stage.val = 0
      · rw [if_pos h0] at h
        exact ih rest oneshot quiet cb err tr r t2 (by omega) h
      · rw [if_neg h0] at h
        cases hme : merge_entry (ce :: rest) quiet ce.name cb with
        | none =>
          rw [hme] at h
          exact absurd h (by simp)
        | some rv =>
          rw [hme] at h
          dsimp only at h
          rcases merge_entry_first_match ce rest quiet cb h0 rv hme with hrv | hrv
          · subst hrv
            rw [if_neg (by omega : ¬ (0:Int) < -2), if_neg (by omega : ¬ (-2:Int) = -1),
                if_pos rfl] at h
            by_cases hos : oneshot = true
            · rw [if_pos hos] at h
              exact ih rest oneshot quiet cb (err + 1) _ r t2 (by omega) h
            · rw [if_neg hos] at h
              simp only [Option.some.injEq, Prod.mk.injEq] at h
              omega
          · rw [if_pos hrv] at h
            refine ih _ oneshot quiet cb err _ r t2 ?_ h
            simp only [List.length_drop, List.length_cons]
            omega

/-- C5 counterexample: `merge_strategies_resolve` maps the result of its
automatic-merge walk through `!!ret` (merge-strategies.c:403), so a walk
result of `-1` — the not-in-cache hard failure — would produce exit code
1, not the exit code 2 the claim states. -/
theorem c5_counterexample :
    int_not_not (-1) = 1 ∧ decide (int_not_not (-1) = 2) = false := by
  decide

/-- C5 (amended): the automatic-merge walk of a driver can never fail
with the not-in-cache error: every result surfaced by `merge_all` is
nonnegative, because each dispatched position holds an entry of the
dispatched path.  Had the walk produced `-1`, the resolve driver's
`!!ret` would map it to exit code 1, not 2. -/
theorem c5_amended :
    (∀ (l : List CacheEntry) (oneshot quiet : Bool) (cb : MergeCb) (err : Nat)
       (tr : List Nat) (r : Int) (t2 : List Nat),
       merge_all l oneshot quiet cb err tr = some (r, t2) → 0 ≤ r)
    ∧ int_not_not (-1) = 1 :=
  ⟨fun l oneshot quiet cb err tr r t2 h =>
    merge_all_nonneg l.length l oneshot quiet cb err tr r t2 le_rfl h, by decide⟩

/-- C5 amended claim at a concrete one-path conflicted walk, through the
theorem itself. -/
theorem c5_amended_witness :
    merge_all [⟨4, 10, 33188, 1⟩] false false (fun _ _ _ _ _ _ _ => 1) 0 [] =
      some (1, [4])
    ∧ (0 : Int) ≤ 1 := by
  have h : merge_all [⟨4, 10, 33188, 1⟩] false false (fun _ _ _ _ _ _ _ => 1) 0 [] =
      some (1, [4]) := by
    simp [merge_all, merge_entry, collectStages]
  exact ⟨h, c5_amended.1 [⟨4, 10, 33188, 1⟩] false false _ 0 [] 1 [4] h⟩

/-- C3 counterexample: orig and ours present, theirs absent, modes equal
but contents different.  The claim predicts a clean deletion for equal
modes and the content-merge branch for different contents; the code does
neither: the branch guard requires `oideq(orig_blob, our_blob)` and the
content-merge branch requires both ours and theirs, so the input falls
through to the `"Not handling case"` error with no progress line, no
content merge and no index or worktree mutation. -/
theorem c3_counterexample :
    merge_strategies_one_file fsEnvNone (some 1) (some 2) none 5 33188 33188 33188 =
      ⟨some (-1), [], [.unhandledCase 5], []⟩ := by
  decide

/-- C3 (amended): with orig and ours present and theirs absent, the path
is handled as a clean deletion only when orig's id equals ours' id in
addition to the equal modes (print `"Removing %s"`, remove the worktree
file if present, remove the path from the index, return success); when
ours' content differs from orig's content the call does not reach the
content-merge branch and instead returns the unhandled-case error,
touching neither the index nor the worktree. -/
theorem c3_amended (env : FsEnv) (a b path m tm : Nat)
    (hrm : env.removeIndexFails = false) (hab : a ≠ b) :
    merge_strategies_one_file env (some a) (some a) none path m m tm =
      ⟨some 0, [.removing path], [],
        (if env.fileExists path = true then [FileAction.removeWorktree path] else []) ++
          [.removeFromIndex path]⟩
    ∧ merge_strategies_one_file env (some a) (some b) none path m m tm =
      ⟨some (-1), [], [.unhandledCase path], []⟩ := by
  constructor
  · simp [merge_strategies_one_file, merge_one_file_deleted, hrm]
  · simp [merge_strategies_one_file, hab]

/-- C3 amended claim at concrete inputs (equal contents, then different
contents), through the theorem itself. -/
theorem c3_amended_witness :
    fsEnvNone.removeIndexFails = false ∧ (1 : Nat) ≠ 2
    ∧ merge_strategies_one_file fsEnvNone (some 1) (some 1) none 5 33188 33188 33188 =
      ⟨some 0, [.removing 5], [], [.removeFromIndex 5]⟩
    ∧ merge_strategies_one_file fsEnvNone (some 1) (some 2) none 5 33188 33188 33188 =
      ⟨some (-1), [], [.unhandledCase 5], []⟩ := by
  refine ⟨rfl, by decide, ?_, (c3_amended fsEnvNone 1 2 5 33188 33188 rfl (by decide)).2⟩
  have h := (c3_amended fsEnvNone 1 2 5 33188 33188 rfl (by decide)).1
  simpa using h

/-- C8 counterexample: orig and ours absent, theirs present, and an
untracked worktree file in the way.  The code prints the `"Adding %s"`
progress line before the untracked check, so the error case emits both
the progress line and the error message, contradicting the claim that
the progress line appears only in the no-conflict case. -/
theorem c8_counterexample :
    merge_strategies_one_file fsEnvTracked none none (some 7) 5 0 0 33188 =
      ⟨some (-1), [.adding 5], [.untrackedOverwritten 5], []⟩
    ∧ decide ((merge_strategies_one_file fsEnvTracked none none
        (some 7) 5 0 0 33188).msgs = []) = false := by
  decide

/-- C8 (amended): with orig and ours absent and theirs present, an
existing worktree file makes the call return the untracked-overwrite
error with no index or worktree mutation, but the `"Adding %s"` progress
line is printed before the check, so the error case emits the progress
line and then the error; in the clean case exactly the progress line is
emitted and the path is added to the index and checked out. -/
theorem c8_amended (env : FsEnv) (t path om um tm : Nat) :
    (env.fileExists path = true →
      merge_strategies_one_file env none none (some t) path om um tm =
        ⟨some (-1), [.adding path], [.untrackedOverwritten path], []⟩)
    ∧ (env.fileExists path = false → env.verifyPath path tm = true →
       env.addIndexFails = false → env.checkoutFails = false →
       merge_strategies_one_file env none none (some t) path om um tm =
         ⟨some 0, [.adding path], [], [.addIndex tm t path, .checkout path]⟩) := by
  constructor
  · intro hfe
    simp [merge_strategies_one_file, hfe]
  · intro hfe hvp hai hco
    simp [merge_strategies_one_file, add_to_index_cacheinfo, checkout_from_index,
      hfe, hvp, hai, hco]

/-- C8 amended claim at concrete inputs (worktree file present, then
absent), through the theorem itself. -/
theorem c8_amended_witness :
    fsEnvTracked.fileExists 5 = true
    ∧ merge_strategies_one_file fsEnvTracked none none (some 7) 5 0 0 33188 =
      ⟨some (-1), [.adding 5], [.untrackedOverwritten 5], []⟩
    ∧ fsEnvNone.fileExists 5 = false
    ∧ merge_strategies_one_file fsEnvNone none none (some 7) 5 0 0 33188 =
      ⟨some 0, [.adding 5], [], [.addIndex 33188 7 5, .checkout 5]⟩ :=
  ⟨rfl, (c8_amended fsEnvTracked 7 5 0 0 33188).1 rfl, rfl,
    (c8_amended fsEnvNone 7 5 0 0 33188).2 rfl rfl rfl rfl⟩

/-- Auxiliary: `!!r` is 0 or 1. -/
theorem int_not_not_bounds (r : Int) : 0 ≤ int_not_not r ∧ int_not_not r ≤ 1 := by
  by_cases hr : r = 0 <;> simp [int_not_not, hr]

/-- Auxiliary for C4: every early exit of an octopus iteration carries
`none` (a `die`), exit code 2, or exit code `-1` — the last only when the
fast-forward step fails; every continuation state carries the previous
`ret`, 0, or 1. -/
theorem octoStep_shape (cb : MergeCb) (s : OctoState) (e : RemoteEnv) (k : Nat) :
    (∃ res, octoStep cb s e k = Sum.inl res ∧
      (res.retv = none ∨ res.retv = some 2 ∨ (res.retv = some (-1) ∧ e.ffFails = true)))
    ∨ (∃ s2, octoStep cb s e k = Sum.inr s2 ∧
      (s2.ret = s.ret ∨ s2.ret = 0 ∨ s2.ret = 1)) := by
  unfold octoStep
  by_cases h1 : e.commonIds = []
  · rw [if_pos h1]
    exact Or.inl ⟨_, rfl, Or.inl rfl⟩
  rw [if_neg h1]
  by_cases h2 : e.oid ∈ e.commonIds
  · rw [if_pos h2]
    exact Or.inr ⟨_, rfl, Or.inl rfl⟩
  rw [if_neg h2]
  by_cases h3 : s.nonFF = false ∧ octopus_can_ff e.commonIds s.refs = true
  · rw [if_pos h3]
    by_cases h4 : e.ffFails
    · rw [if_pos h4]
      exact Or.inl ⟨_, rfl, Or.inr (Or.inr ⟨rfl, h4⟩)⟩
    · rw [if_neg h4]
      exact Or.inr ⟨_, rfl, Or.inr (Or.inl rfl)⟩
  rw [if_neg h3]
  by_cases h5 : e.simpleFFFails
  · rw [if_pos h5]
    exact Or.inl ⟨_, rfl, Or.inr (Or.inl rfl)⟩
  rw [if_neg h5]
  by_cases h6 : e.writeTreeFails
  · rw [if_pos h6]
    cases hma : merge_all e.istate false false cb 0 [] with
    | none =>
      exact Or.inl ⟨_, rfl, Or.inl rfl⟩
    | some pr =>
      obtain ⟨r, t⟩ := pr
      refine Or.inr ⟨_, rfl, ?_⟩
      by_cases hr : r = 0 <;> simp [int_not_not, hr]
  · rw [if_neg h6]
    exact Or.inr ⟨_, rfl, Or.inr (Or.inl rfl)⟩

/-- Auxiliary for C4: along the octopus loop, every returned exit code is
between -1 and 2 (and nonnegative when no remote's fast-forward step
fails), and every fall-through state keeps `ret` in `{0, 1}`. -/
theorem octoSteps_ret_bound (cb : MergeCb) (l : List RemoteEnv) :
    ∀ (s : OctoState) (k : Nat), 0 ≤ s.ret → s.ret ≤ 1 →
    (∀ res, octoSteps cb s l k = Sum.inl res → ∀ r, res.retv = some r →
      (-1 ≤ r ∧ r ≤ 2) ∧ ((∀ e ∈ l, e.ffFails = false) → 0 ≤ r))
    ∧ (∀ s2, octoSteps cb s l k = Sum.inr s2 → 0 ≤ s2.ret ∧ s2.ret ≤ 1) := by
  induction l with
  | nil =>
    intro s k hl hu
    constructor
    · intro res h
      exact absurd h (by simp [octoSteps])
    · intro s2 h
      simp only [octoSteps, Sum.inr.injEq] at h
      subst h
      exact ⟨hl, hu⟩
  | cons e rest ih =>
    intro s k hl hu
    by_cases hret : s.ret ≠ 0
    · constructor
      · intro res h
        simp only [octoSteps, if_pos hret] at h
        injection h with h2
        subst h2
        intro r hr
        simp only [Option.some.injEq] at hr
        subst hr
        exact ⟨by omega, fun _ => by omega⟩
      · intro s2 h
        simp only [octoSteps, if_pos hret] at h
        exact absurd h (by simp)
    · rcases octoStep_shape cb s e k with ⟨res1, heq, hres⟩ | ⟨s3, heq, hret3⟩
      · constructor
        · intro res h
          simp only [octoSteps, if_neg hret, heq] at h
          injection h with h2
          subst h2
          intro r hr
          rcases hres with hv | hv | ⟨hv, hff⟩
          · rw [hv] at hr
            exact absurd hr (by simp)
          · rw [hv] at hr
            simp only [Option.some.injEq] at hr
            subst hr
            exact ⟨by omega, fun _ => by omega⟩
          · rw [hv] at hr
            simp only [Option.some.injEq] at hr
            subst hr
            refine ⟨by omega, fun hall => ?_⟩
            have := hall e (List.mem_cons_self e rest)
            rw [this] at hff
            exact absurd hff (by simp)
        · intro s2 h
          simp only [octoSteps, if_neg hret, heq] at h
          exact absurd h (by simp)
      · have hb : 0 ≤ s3.ret ∧ s3.ret ≤ 1 := by
          rcases hret3 with h3 | h3 | h3 <;> rw [h3]
          · exact ⟨hl, hu⟩
          · exact ⟨by omega, by omega⟩
          · exact ⟨by omega, by omega⟩
        constructor
        · intro res h
          simp only [octoSteps, if_neg hret, heq] at h
          intro r hr
          have := ((ih s3 (k + 1) hb.1 hb.2).1 res h) r hr
          exact ⟨this.1, fun hall =>
            this.2 (fun x hx => hall x (List.mem_cons_of_mem e hx))⟩
        · intro s2 h
          simp only [octoSteps, if_neg hret, heq] at h
          exact (ih s3 (k + 1) hb.1 hb.2).2 s2 h

/-- C4 counterexample: one remote whose merge base equals the head, so
the fast-forward branch is taken, and whose `fast_forward` call fails.
The driver propagates `fast_forward`'s `-1` through `out`
(merge-strategies.c:559-564), returning a negative value outside
`{0, 1, 2}`. -/
theorem c4_counterexample :
    (merge_strategies_octopus (fun _ _ _ _ _ _ _ => 0) 1 false
      [⟨2, [1], true, false, false, []⟩]).retv = some (-1)
    ∧ decide (0 ≤ (-1 : Int)) = false := by
  constructor
  · simp [merge_strategies_octopus, octoSteps, octoStep, octopus_can_ff]
  · decide

/-- C4 (amended): `merge_strategies_resolve` always returns an exit code
in `{0, 1, 2}`; `merge_strategies_octopus` returns an exit code in
`{-1, 0, 1, 2}`, and in `{0, 1, 2}` provided the fast-forward step fails
for no remote — the failing fast-forward branch is the one place where a
negative value (`fast_forward`'s `-1`) escapes. -/
theorem c4_amended :
    (∀ (env : ResolveEnv) (r : Int) (w : List ResolveWrite),
       merge_strategies_resolve env = some (r, w) → 0 ≤ r ∧ r ≤ 2)
    ∧ (∀ (cb : MergeCb) (headId : Nat) (chg : Bool) (rs : List RemoteEnv) (r : Int),
       (merge_strategies_octopus cb headId chg rs).retv = some r → -1 ≤ r ∧ r ≤ 2)
    ∧ (∀ (cb : MergeCb) (headId : Nat) (chg : Bool) (rs : List RemoteEnv) (r : Int),
       (∀ e ∈ rs, e.ffFails = false) →
       (merge_strategies_octopus cb headId chg rs).retv = some r → 0 ≤ r ∧ r ≤ 2) := by
  have hres : ∀ (env : ResolveEnv) (r : Int) (w : List ResolveWrite),
      merge_strategies_resolve env = some (r, w) → 0 ≤ r ∧ r ≤ 2 := by
    intro env r w h
    unfold merge_strategies_resolve at h
    by_cases h1 : env.addTreeFails
    · rw [if_pos h1] at h
      simp only [Option.some.injEq, Prod.mk.injEq] at h
      omega
    rw [if_neg h1] at h
    by_cases h2 : env.unpackFails
    · rw [if_pos h2] at h
      simp only [Option.some.injEq, Prod.mk.injEq] at h
      omega
    rw [if_neg h2] at h
    by_cases h3 : env.writeTreeFails
    · rw [if_pos h3] at h
      cases hma : merge_all env.istate false false env.cb 0 [] with
      | none =>
        rw [hma] at h
        exact absurd h (by simp)
      | some pr =>
        obtain ⟨rv, tv⟩ := pr
        rw [hma] at h
        simp only [Option.some.injEq, Prod.mk.injEq] at h
        have hb := int_not_not_bounds rv
        omega
    · rw [if_neg h3] at h
      simp only [Option.some.injEq, Prod.mk.injEq] at h
      omega
  have hocto : ∀ (cb : MergeCb) (headId : Nat) (chg : Bool) (rs : List RemoteEnv) (r : Int),
      (merge_strategies_octopus cb headId chg rs).retv = some r →
      (-1 ≤ r ∧ r ≤ 2) ∧ ((∀ e ∈ rs, e.ffFails = false) → 0 ≤ r) := by
    intro cb headId chg rs r h
    unfold merge_strategies_octopus at h
    by_cases hchg : chg = true
    · rw [if_pos hchg] at h
      simp only [Option.some.injEq] at h
      subst h
      exact ⟨⟨by omega, by omega⟩, fun _ => by omega⟩
    rw [if_neg hchg] at h
    have hb := octoSteps_ret_bound cb rs ⟨[headId], false, 0, [], []⟩ 0
      (show (0 : Int) ≤ 0 from le_refl 0) (show (0 : Int) ≤ 1 by norm_num)
    cases hs : octoSteps cb ⟨[headId], false, 0, [], []⟩ rs 0 with
    | inl res =>
      rw [hs] at h
      exact (hb.1 res hs) r h
    | inr s =>
      rw [hs] at h
      simp only [Option.some.injEq] at h
      subst h
      have := hb.2 s hs
      exact ⟨⟨by omega, by omega⟩, fun _ => by omega⟩
  exact ⟨hres, fun cb headId chg rs r h => (hocto cb headId chg rs r h).1,
    fun cb headId chg rs r hall h =>
      ⟨(hocto cb headId chg rs r h).2 hall, (hocto cb headId chg rs r h).1.2⟩⟩

/-- C4 amended claim at concrete inputs (a failed unpack for resolve, the
preflight abort for octopus), through the theorem itself. -/
theorem c4_amended_witness :
    merge_strategies_resolve ⟨true, false, false, [], fun _ _ _ _ _ _ _ => 0⟩ = some (2, [])
    ∧ (0 ≤ (2 : Int) ∧ (2 : Int) ≤ 2)
    ∧ (merge_strategies_octopus (fun _ _ _ _ _ _ _ => 0) 1 true []).retv = some 2
    ∧ (-1 ≤ (2 : Int) ∧ (2 : Int) ≤ 2)
    ∧ (∀ e ∈ ([] : List RemoteEnv), e.ffFails = false) := by
  have h1 : merge_strategies_resolve ⟨true, false, false, [], fun _ _ _ _ _ _ _ => 0⟩ =
      some (2, []) := rfl
  have h2 : (merge_strategies_octopus (fun _ _ _ _ _ _ _ => 0) 1 true []).retv = some 2 := rfl
  exact ⟨h1, c4_amended.1 _ 2 [] h1, h2, c4_amended.2.1 _ 1 true [] 2 h2, by simp⟩

/-- C6 counterexample: two remotes; the first runs a simple merge whose
tree write fails, so `merge_all` leaves a conflict (`ret = 1`) after two
index commits; the second iteration then exits fatally with code 2 — and
the on-disk index keeps both commits of the first iteration, so it is not
byte-identical to its state at driver entry. -/
theorem c6_counterexample :
    merge_strategies_octopus (fun _ _ _ _ _ _ _ => 1) 1 false
      [⟨2, [9], false, false, true, [⟨4, 5, 33188, 1⟩]⟩,
       ⟨3, [1], false, false, false, []⟩] =
      ⟨some 2, [(0, 0), (0, 1)], [2]⟩
    ∧ decide ((merge_strategies_octopus (fun _ _ _ _ _ _ _ => 1) 1 false
        [⟨2, [9], false, false, true, [⟨4, 5, 33188, 1⟩]⟩,
         ⟨3, [1], false, false, false, []⟩]).writes = []) = false := by
  have h : merge_strategies_octopus (fun _ _ _ _ _ _ _ => 1) 1 false
      [⟨2, [9], false, false, true, [⟨4, 5, 33188, 1⟩]⟩,
       ⟨3, [1], false, false, false, []⟩] =
      ⟨some 2, [(0, 0), (0, 1)], [2]⟩ := by
    simp [merge_strategies_octopus, octoSteps, octoStep, octopus_can_ff, merge_all,
      merge_entry, collectStages, int_not_not]
  rw [h]
  exact ⟨rfl, by decide⟩

/-- C6 (amended): atomicity holds per lock acquisition, not per driver
invocation.  `merge_strategies_resolve` commits nothing before a fatal
exit: whenever it returns 2 the on-disk commit list is empty.  The
octopus driver, however, commits the index after each completed
per-remote step, and its fatal last-only-conflict exit returns with
exactly the commits accumulated by the earlier iterations — earlier
per-remote merge state persists on disk. -/
theorem c6_amended :
    (∀ (env : ResolveEnv) (w : List ResolveWrite),
       merge_strategies_resolve env = some (2, w) → w = [])
    ∧ (∀ (cb : MergeCb) (s : OctoState) (e : RemoteEnv) (rest : List RemoteEnv) (k : Nat),
       s.ret ≠ 0 →
       octoSteps cb s (e :: rest) k = Sum.inl ⟨some 2, s.writes, s.processed⟩) := by
  constructor
  · intro env w h
    unfold merge_strategies_resolve at h
    by_cases h1 : env.addTreeFails
    · rw [if_pos h1] at h
      simp only [Option.some.injEq, Prod.mk.injEq] at h
      exact h.2.symm
    rw [if_neg h1] at h
    by_cases h2 : env.unpackFails
    · rw [if_pos h2] at h
      simp only [Option.some.injEq, Prod.mk.injEq] at h
      exact h.2.symm
    rw [if_neg h2] at h
    by_cases h3 : env.writeTreeFails
    · rw [if_pos h3] at h
      cases hma : merge_all env.istate false false env.cb 0 [] with
      | none =>
        rw [hma] at h
        exact absurd h (by simp)
      | some pr =>
        obtain ⟨rv, tv⟩ := pr
        rw [hma] at h
        simp only [Option.some.injEq, Prod.mk.injEq] at h
        have hb := int_not_not_bounds rv
        omega
    · rw [if_neg h3] at h
      simp only [Option.some.injEq, Prod.mk.injEq] at h
      omega
  · intro cb s e rest k hret
    simp only [octoSteps, if_pos hret]

/-- C6 amended claim at concrete inputs (a failed unpack for resolve, a
conflicted state entering a later octopus iteration), through the theorem
itself. -/
theorem c6_amended_witness :
    merge_strategies_resolve ⟨false, true, false, [], fun _ _ _ _ _ _ _ => 0⟩ = some (2, [])
    ∧ ([] : List ResolveWrite) = []
    ∧ (⟨[1], true, 1, [(0, 0)], [2]⟩ : OctoState).ret ≠ 0
    ∧ octoSteps (fun _ _ _ _ _ _ _ => 0) ⟨[1], true, 1, [(0, 0)], [2]⟩
        [⟨3, [1], false, false, false, []⟩] 1 = Sum.inl ⟨some 2, [(0, 0)], [2]⟩ := by
  have h1 : merge_strategies_resolve ⟨false, true, false, [], fun _ _ _ _ _ _ _ => 0⟩ =
      some (2, []) := rfl
  refine ⟨h1, c6_amended.1 _ [] h1, by decide, ?_⟩
  exact c6_amended.2 (fun _ _ _ _ _ _ _ => 0) ⟨[1], true, 1, [(0, 0)], [2]⟩
    ⟨3, [1], false, false, false, []⟩ [] 1 (by decide)

/-- Auxiliary for C7: the octopus loop is compositional — when a prefix
of remotes is processed without an early exit, running the loop on the
whole list continues from the state the prefix left. -/
theorem octoSteps_append (cb : MergeCb) (l1 l2 : List RemoteEnv) :
    ∀ (s : OctoState) (k : Nat) (s1 : OctoState),
    octoSteps cb s l1 k = Sum.inr s1 →
    octoSteps cb s (l1 ++ l2) k = octoSteps cb s1 l2 (k + l1.length) := by
  induction l1 with
  | nil =>
    intro s k s1 h
    simp only [octoSteps, Sum.inr.injEq] at h
    subst h
    simp
  | cons e rest ih =>
    intro s k s1 h
    simp only [octoSteps] at h
    by_cases hret : s.ret ≠ 0
    · rw [if_pos hret] at h
      exact absurd h (by simp)
    · rw [if_neg hret] at h
      simp only [List.cons_append, octoSteps, if_neg hret]
      cases ho : octoStep cb s e k with
      | inl res =>
        rw [ho] at h
        exact absurd h (by simp)
      | inr s2 =>
        rw [ho] at h
        dsimp only [List.append_eq] at h ⊢
        rw [ih s2 (k + 1) s1 h]
        simp only [List.length_cons]
        congr 1
        omega

/-- C7: in `merge_strategies_octopus`, if processing the remotes before
`e` completes and leaves a nonzero `ret` (hand-resolvable conflicts) and
at least one remote remains, the driver returns 2 at the start of the
next iteration: the result carries exactly the writes and the processed
list accumulated so far, so no merge-base computation, fast-forward,
simple merge or per-path merge runs for `e` or any later remote. -/
theorem c7_last_only_conflict (cb : MergeCb) (headId : Nat) (l1 : List RemoteEnv)
    (e : RemoteEnv) (l2 : List RemoteEnv) (s1 : OctoState)
    (h : octoSteps cb ⟨[headId], false, 0, [], []⟩ l1 0 = Sum.inr s1)
    (hret : s1.ret ≠ 0) :
    merge_strategies_octopus cb headId false (l1 ++ e :: l2) =
      ⟨some 2, s1.writes, s1.processed⟩ := by
  have happ := octoSteps_append cb l1 (e :: l2) ⟨[headId], false, 0, [], []⟩ 0 s1 h
  have hstop : octoSteps cb s1 (e :: l2) (0 + l1.length) =
      Sum.inl ⟨some 2, s1.writes, s1.processed⟩ := by
    simp only [octoSteps, if_pos hret]
  unfold merge_strategies_octopus
  rw [if_neg (by decide : ¬ (false = true)), happ, hstop]

/-- C7 at a concrete run: one remote leaves a merge_all conflict
(`ret = 1`), a second remote is pending, and the driver returns 2 with
the first iteration's writes and processed list, through the theorem
itself. -/
theorem c7_last_only_conflict_witness :
    octoSteps (fun _ _ _ _ _ _ _ => 1) ⟨[8], false, 0, [], []⟩
      [⟨5, [9], false, false, true, [⟨3, 6, 33188, 1⟩]⟩] 0 =
      Sum.inr ⟨[8, 5], true, 1, [(0, 0), (0, 1)], [5]⟩
    ∧ (⟨[8, 5], true, 1, [(0, 0), (0, 1)], [5]⟩ : OctoState).ret ≠ 0
    ∧ merge_strategies_octopus (fun _ _ _ _ _ _ _ => 1) 8 false
        ([⟨5, [9], false, false, true, [⟨3, 6, 33188, 1⟩]⟩] ++
          [⟨6, [8], false, false, false, []⟩]) =
        ⟨some 2, [(0, 0), (0, 1)], [5]⟩ := by
  have h1 : octoSteps (fun _ _ _ _ _ _ _ => 1) ⟨[8], false, 0, [], []⟩
      [⟨5, [9], false, false, true, [⟨3, 6, 33188, 1⟩]⟩] 0 =
      Sum.inr ⟨[8, 5], true, 1, [(0, 0), (0, 1)], [5]⟩ := by
    simp [octoSteps, octoStep, octopus_can_ff, merge_all, merge_entry, collectStages,
      int_not_not]
  exact ⟨h1, by decide,
    c7_last_only_conflict (fun _ _ _ _ _ _ _ => 1) 8
      [⟨5, [9], false, false, true, [⟨3, 6, 33188, 1⟩]⟩]
      ⟨6, [8], false, false, false, []⟩ [] ⟨[8, 5], true, 1, [(0, 0), (0, 1)], [5]⟩
      h1 (by decide)⟩
